import Mathlib

/-!
Verification development for the screen-pinger animation pipeline
(`src/main.rs`).  The cross-thread animation engine is embedded shallowly:

* `Animation` mirrors `struct Animation` (`id: usize`, `frame: u8`,
  `position: MousePosition = (i32, i32)`, `last_update: Instant`).
  `usize` ids are modelled as `Nat`; the `u8` frame counter is a `Nat`
  whose increment is taken modulo 256; `Instant` / `Duration` values are
  modelled as rational seconds.
* `tickAnimation` is the body of the per-animation `for` loop of the
  animation driver thread (lines 76-91): gate on
  `elapsed.as_secs_f64() > frame_time`, increment `frame`, reset
  `last_update`, emit `Animate` when `frame < 60` and `Clear` otherwise.
* `schedulerPass` is one full pass of the driver loop: drain the
  `ArrayQueue` into the local queue, tick every animation, then
  `retain(|a| a.frame < 60)`.  `schedulerIterate` adds the
  park-while-both-empty guard (lines 66-74).
* `listenCallback` is the `rdev::listen` closure (lines 105-136):
  Alt latches `primed`, a primed left click assigns the next id, pushes
  non-blockingly into the capacity-10 queue and, on success only, plays
  the audio cue and unparks the driver thread.
* `add_animation` / `remove_animation` / `applyEvent` mirror the
  consumer side (`MyApp`, lines 364-370), with the `HashMap` modelled as
  a lookup function `Nat → Option Animation`.
-/

namespace ScreenPinger

/-- `struct Animation` from the source.  `frame` is a `u8` there, so every
increment in the model is taken `% 256`; `last_update` is an `Instant`,
modelled as rational seconds. -/
structure Animation where
  id : Nat
  frame : Nat
  position : Int × Int
  last_update : ℚ
deriving DecidableEq, Repr

/-- `enum CustomEvent` from the source. -/
inductive CustomEvent where
  | Animate (a : Animation)
  | Clear (id : Nat)
deriving DecidableEq, Repr

/-- `let frame_time = 1.0 / 60.0;` (seconds). -/
def frame_time : ℚ := 1 / 60

/-- Body of the per-animation loop of the animation driver thread
(lines 76-91): if the elapsed time since `last_update` strictly exceeds
`frame_time`, the frame is incremented (u8 arithmetic), `last_update` is
reset to `now`, and an `Animate` (when the new frame is `< 60`) or a
`Clear` (otherwise) is emitted.  Returns the updated animation and the
emitted event, if any. -/
def tickAnimation (now : ℚ) (a : Animation) : Animation × Option CustomEvent :=
  if now - a.last_update > frame_time then
    let a' : Animation :=
      { id := a.id, frame := (a.frame + 1) % 256, position := a.position, last_update := now }
    if a'.frame < 60 then (a', some (CustomEvent.Animate a'))
    else (a', some (CustomEvent.Clear a'.id))
  else (a, none)

/-- The driver's `for animation in local_animation_queue.iter_mut()` pass:
tick every animation in order, collecting the emitted events in order. -/
def tickAll (now : ℚ) : List Animation → List Animation × List CustomEvent
  | [] => ([], [])
  | a :: rest =>
    let p := tickAnimation now a
    let q := tickAll now rest
    (p.1 :: q.1, p.2.toList ++ q.2)

/-- State of the scheduler thread: the shared `ArrayQueue` contents
(front first) and the thread-local `local_animation_queue`. -/
structure SchedState where
  queue : List Animation
  localq : List Animation
deriving DecidableEq, Repr

/-- One full pass of the driver loop body (lines 72-93): drain the shared
queue into the local queue (`while let Some(a) = animations.pop()`), tick
every animation, then `retain(|animation| animation.frame < 60)`. -/
def schedulerPass (now : ℚ) (st : SchedState) : SchedState × List CustomEvent :=
  let drained := st.localq ++ st.queue
  let p := tickAll now drained
  (⟨[], p.1.filter (fun a => a.frame < 60)⟩, p.2)

/-- One iteration of the driver loop including the idle guard
(lines 66-74): while both queues are empty the thread parks, doing no
frame-advance work and emitting nothing; otherwise it runs a pass. -/
def schedulerIterate (now : ℚ) (st : SchedState) : SchedState × List CustomEvent :=
  if st.queue.isEmpty && st.localq.isEmpty then (st, [])
  else schedulerPass now st

/-- Repeated iterations of the driver loop, one per entry of `nows`
(the wall-clock instant observed by each pass), concatenating all
emitted events in order. -/
def runPasses : List ℚ → SchedState → List CustomEvent
  | [], _ => []
  | now :: rest, st =>
    let p := schedulerIterate now st
    p.2 ++ runPasses rest p.1

/-- The event trace produced for one animation across successive passes
of the driver loop, each pass observing the corresponding instant of
`nows`.  This is the single-animation projection of the loop body of
lines 76-93: once the animation's frame reaches 60 it emits `Clear` and
is removed by the `retain`, so the trace ends. -/
def runAnimation : Animation → List ℚ → List CustomEvent
  | _, [] => []
  | a, now :: rest =>
    if now - a.last_update > frame_time then
      let a' : Animation :=
        { id := a.id, frame := (a.frame + 1) % 256, position := a.position, last_update := now }
      if a'.frame < 60 then CustomEvent.Animate a' :: runAnimation a' rest
      else [CustomEvent.Clear a'.id]
    else runAnimation a rest

/-- A pass schedule on which every gate check fires: instants one full
second apart, far beyond the 1/60 s frame period. -/
def fireSchedule (t : ℚ) : Nat → List ℚ
  | 0 => []
  | n + 1 => (t + 1) :: fireSchedule (t + 1) n

/-- The id an event is about. -/
def eventId : CustomEvent → Nat
  | .Animate a => a.id
  | .Clear i => i

/-- Whether an event is a `Clear`. -/
def isClear : CustomEvent → Bool
  | .Clear _ => true
  | .Animate _ => false

/-- The frame indices carried by the `Animate` events of a trace,
in delivery order. -/
def animateFrames : List CustomEvent → List Nat
  | [] => []
  | .Animate a :: rest => a.frame :: animateFrames rest
  | .Clear _ :: rest => animateFrames rest

/-- Keyboard keys as seen by the `rdev::listen` callback: only `Alt` is
distinguished by the source. -/
inductive Key where
  | Alt
  | OtherKey (code : Nat)
deriving DecidableEq, Repr

/-- Mouse buttons as seen by the callback: only `Left` is distinguished. -/
inductive Button where
  | Left
  | OtherButton (code : Nat)
deriving DecidableEq, Repr

/-- `rdev::EventType`, restricted to the arms the callback matches on. -/
inductive EventType where
  | KeyPress (key : Key)
  | KeyRelease (key : Key)
  | ButtonPress (button : Button)
  | OtherEvent
deriving DecidableEq, Repr

/-- `ArrayQueue::new(10)`: the bounded registry queue capacity. -/
def QUEUE_CAP : Nat := 10

/-- `ArrayQueue::push`: non-blocking bounded push.  Returns the new queue
contents together with `true` on success (`Ok(())`) and the unchanged
queue with `false` when full (`Err(value)`). -/
def arrayQueuePush (q : List Animation) (a : Animation) : List Animation × Bool :=
  if q.length < QUEUE_CAP then (q ++ [a], true) else (q, false)

/-- State owned by the input-listener thread: the `primed` latch, the
`animation_id` counter, the shared registry queue, and two observation
counters for the side effects of the callback (`play_raw` calls and
`unpark` calls). -/
structure ListenerState where
  primed : Bool
  animation_id : Nat
  queue : List Animation
  soundsPlayed : Nat
  unparks : Nat
deriving DecidableEq, Repr

/-- The `rdev::listen` closure (lines 105-136): `Alt` press/release
latches `primed`; a primed left-button press samples the pointer
position `pos`, increments `animation_id`, and attempts a non-blocking
push of `Animation { id, frame: 0, position, last_update: now }`; only
when the push succeeds does it play the audio cue and unpark the driver
thread.  All other events are ignored. -/
def listenCallback (now : ℚ) (pos : Int × Int) (st : ListenerState) :
    EventType → ListenerState
  | .KeyPress key =>
    if key = Key.Alt then
      { primed := true, animation_id := st.animation_id, queue := st.queue,
        soundsPlayed := st.soundsPlayed, unparks := st.unparks }
    else st
  | .KeyRelease key =>
    if key = Key.Alt then
      { primed := false, animation_id := st.animation_id, queue := st.queue,
        soundsPlayed := st.soundsPlayed, unparks := st.unparks }
    else st
  | .ButtonPress button =>
    if st.primed = true ∧ button = Button.Left then
      let newId := st.animation_id + 1
      let p := arrayQueuePush st.queue
        { id := newId, frame := 0, position := pos, last_update := now }
      if p.2 then
        { primed := st.primed, animation_id := newId, queue := p.1,
          soundsPlayed := st.soundsPlayed + 1, unparks := st.unparks + 1 }
      else
        { primed := st.primed, animation_id := newId, queue := p.1,
          soundsPlayed := st.soundsPlayed, unparks := st.unparks }
    else st
  | .OtherEvent => st

/-- Result of `EventLoopProxy::send_event`: `Ok(())` while the event loop
is alive (the event is enqueued losslessly into the loop's ordered
queue), `Err(EventLoopClosed(event))` once it has been destroyed. -/
inductive SendResult where
  | ok
  | eventLoopClosed
deriving DecidableEq, Repr

/-- `event_loop_proxy.send_event(ev)`, modelled over the channel's
delivered-event list: when `channelOpen` the event is appended and the
call returns `Ok`, otherwise the list is unchanged and the call returns
the `EventLoopClosed` error. -/
def send_event (channelOpen : Bool) (delivered : List CustomEvent) (ev : CustomEvent) :
    List CustomEvent × SendResult :=
  if channelOpen then (delivered ++ [ev], SendResult.ok) else (delivered, SendResult.eventLoopClosed)

/-- What the driver loop actually does with a notification (lines 82-88):
`send_event(...).ok();` — the `Result` is discarded by `Result::ok`, so
the loop continues unconditionally.  The second component records
whether the driver treats the outcome as fatal (panics/aborts): it is
`false` in every case, because the error is discarded. -/
def driverSendEvent (channelOpen : Bool) (delivered : List CustomEvent) (ev : CustomEvent) :
    List CustomEvent × Bool :=
  ((send_event channelOpen delivered ev).1, false)

/-- The consumer's `HashMap<usize, Animation>`, modelled as a lookup
function. -/
def ConsumerMap : Type := Nat → Option Animation

/-- The empty map `HashMap::new()`. -/
def emptyMap : ConsumerMap := fun _ => none

/-- `MyApp::add_animation`: `self.animations.insert(animation.id, animation)`
(insert-or-overwrite keyed by id). -/
def add_animation (m : ConsumerMap) (a : Animation) : ConsumerMap :=
  fun k => if k = a.id then some a else m k

/-- `MyApp::remove_animation`: `self.animations.remove(&animation_id)`. -/
def remove_animation (m : ConsumerMap) (animation_id : Nat) : ConsumerMap :=
  fun k => if k = animation_id then none else m k

/-- The consumer's handling of one user event (lines 223-230):
`Animate` upserts, `Clear` removes. -/
def applyEvent (m : ConsumerMap) : CustomEvent → ConsumerMap
  | .Animate a => add_animation m a
  | .Clear animation_id => remove_animation m animation_id

/-- The consumer's state after processing a delivered event sequence in
order. -/
def applyEvents (m : ConsumerMap) (evs : List CustomEvent) : ConsumerMap :=
  evs.foldl applyEvent m

/-- The frame-image access performed by `MyApp::ui`
(`self.frames[animation.frame as usize]`), modelled totally: `none`
exactly when the source indexing would panic out of bounds. -/
def uiFrameLookup {α : Type} (frames : List α) (a : Animation) : Option α :=
  frames.get? a.frame

/-- `true` when no event of the trace concerns the id `i`. -/
def noEventFor (i : Nat) (evs : List CustomEvent) : Bool :=
  evs.all fun e => eventId e != i

/-- Per-id well-ordering of a delivered trace, as guaranteed by the
scheduler: after a `Clear i`, no further event for `i` occurs. -/
def wfTrace : List CustomEvent → Bool
  | [] => true
  | .Animate _ :: rest => wfTrace rest
  | .Clear i :: rest => noEventFor i rest && wfTrace rest

/-! ### Helper lemmas about the scheduler step -/

@[simp] theorem Animation_mk_id (i f : Nat) (p : Int × Int) (t : ℚ) :
    (⟨i, f, p, t⟩ : Animation).id = i := rfl

@[simp] theorem Animation_mk_frame (i f : Nat) (p : Int × Int) (t : ℚ) :
    (⟨i, f, p, t⟩ : Animation).frame = f := rfl

@[simp] theorem Animation_mk_position (i f : Nat) (p : Int × Int) (t : ℚ) :
    (⟨i, f, p, t⟩ : Animation).position = p := rfl

@[simp] theorem Animation_mk_last_update (i f : Nat) (p : Int × Int) (t : ℚ) :
    (⟨i, f, p, t⟩ : Animation).last_update = t := rfl

theorem tickAnimation_not_fired {now : ℚ} {a : Animation}
    (h : ¬ now - a.last_update > frame_time) : tickAnimation now a = (a, none) := by
  simp [tickAnimation, h]

theorem frame_mod_eq {n : Nat} (h : n ≤ 59) : (n + 1) % 256 = n + 1 :=
  Nat.mod_eq_of_lt (by omega)

theorem tickAnimation_fired_animate {now : ℚ} {a : Animation}
    (hg : now - a.last_update > frame_time) (h : a.frame ≤ 59) (hf : a.frame + 1 < 60) :
    tickAnimation now a =
      (⟨a.id, a.frame + 1, a.position, now⟩,
        some (CustomEvent.Animate ⟨a.id, a.frame + 1, a.position, now⟩)) := by
  simp only [tickAnimation, if_pos hg, frame_mod_eq h]
  rw [if_pos]
  simpa using hf

theorem tickAnimation_fired_clear {now : ℚ} {a : Animation}
    (hg : now - a.last_update > frame_time) (h : a.frame ≤ 59) (hf : ¬ a.frame + 1 < 60) :
    tickAnimation now a =
      (⟨a.id, a.frame + 1, a.position, now⟩, some (CustomEvent.Clear a.id)) := by
  simp only [tickAnimation, if_pos hg, frame_mod_eq h]
  rw [if_neg]
  simpa using hf

theorem tickAnimation_id (now : ℚ) (a : Animation) :
    (tickAnimation now a).1.id = a.id := by
  by_cases hg : now - a.last_update > frame_time
  · simp only [tickAnimation, if_pos hg]
    by_cases hf : (a.frame + 1) % 256 < 60
    · rw [if_pos hf]
    · rw [if_neg hf]
  · rw [tickAnimation_not_fired hg]

theorem tickAnimation_position (now : ℚ) (a : Animation) :
    (tickAnimation now a).1.position = a.position := by
  by_cases hg : now - a.last_update > frame_time
  · simp only [tickAnimation, if_pos hg]
    by_cases hf : (a.frame + 1) % 256 < 60
    · rw [if_pos hf]
    · rw [if_neg hf]
  · rw [tickAnimation_not_fired hg]

theorem runAnimation_step_animate {now : ℚ} {a : Animation} (rest : List ℚ)
    (hg : now - a.last_update > frame_time) (h : a.frame ≤ 59) (hf : a.frame + 1 < 60) :
    runAnimation a (now :: rest) =
      CustomEvent.Animate ⟨a.id, a.frame + 1, a.position, now⟩ ::
        runAnimation ⟨a.id, a.frame + 1, a.position, now⟩ rest := by
  simp only [runAnimation, if_pos hg, frame_mod_eq h]
  rw [if_pos]
  simpa using hf

theorem runAnimation_step_clear {now : ℚ} {a : Animation} (rest : List ℚ)
    (hg : now - a.last_update > frame_time) (h : a.frame ≤ 59) (hf : ¬ a.frame + 1 < 60) :
    runAnimation a (now :: rest) = [CustomEvent.Clear a.id] := by
  simp only [runAnimation, if_pos hg, frame_mod_eq h]
  rw [if_neg]
  simpa using hf

theorem runAnimation_step_skip {now : ℚ} {a : Animation} (rest : List ℚ)
    (hg : ¬ now - a.last_update > frame_time) :
    runAnimation a (now :: rest) = runAnimation a rest := by
  simp only [runAnimation, if_neg hg]

theorem runAnimation_frames (nows : List ℚ) :
    ∀ a : Animation, a.frame ≤ 59 →
      ∃ k, animateFrames (runAnimation a nows) = List.range' (a.frame + 1) k ∧
        a.frame + k ≤ 59 := by
  induction nows with
  | nil =>
    intro a _
    exact ⟨0, by simp [runAnimation, animateFrames], by omega⟩
  | cons now rest ih =>
    intro a h
    by_cases hg : now - a.last_update > frame_time
    · by_cases hf : a.frame + 1 < 60
      · obtain ⟨k, hk, hb⟩ := ih ⟨a.id, a.frame + 1, a.position, now⟩
          (by rw [Animation_mk_frame]; omega)
        rw [Animation_mk_frame] at hk hb
        refine ⟨k + 1, ?_, by omega⟩
        rw [runAnimation_step_animate rest hg h hf, animateFrames, hk, List.range'_succ]
      · refine ⟨0, ?_, by omega⟩
        rw [runAnimation_step_clear rest hg h hf]
        simp [animateFrames]
    · rw [runAnimation_step_skip rest hg]
      exact ih a h

theorem runAnimation_clear_shape (nows : List ℚ) :
    ∀ a : Animation, a.frame ≤ 59 →
      (∀ e ∈ runAnimation a nows, isClear e = false) ∨
      (∃ pre, runAnimation a nows = pre ++ [CustomEvent.Clear a.id] ∧
        ∀ e ∈ pre, isClear e = false) := by
  induction nows with
  | nil =>
    intro a _
    left
    simp [runAnimation]
  | cons now rest ih =>
    intro a h
    by_cases hg : now - a.last_update > frame_time
    · by_cases hf : a.frame + 1 < 60
      · rcases ih ⟨a.id, a.frame + 1, a.position, now⟩ (by rw [Animation_mk_frame]; omega)
          with hnone | ⟨pre, hpre, hcl⟩
        · left
          rw [runAnimation_step_animate rest hg h hf]
          intro e he
          rcases List.mem_cons.mp he with rfl | he'
          · rfl
          · exact hnone e he'
        · right
          refine ⟨CustomEvent.Animate ⟨a.id, a.frame + 1, a.position, now⟩ :: pre, ?_, ?_⟩
          · rw [runAnimation_step_animate rest hg h hf, hpre]
            rfl
          · intro e he
            rcases List.mem_cons.mp he with rfl | he'
            · rfl
            · exact hcl e he'
      · right
        refine ⟨[], ?_, by simp⟩
        rw [runAnimation_step_clear rest hg h hf]
        rfl
    · rw [runAnimation_step_skip rest hg]
      exact ih a h

theorem runAnimation_mem (nows : List ℚ) :
    ∀ a : Animation, a.frame ≤ 59 → ∀ e ∈ runAnimation a nows,
      eventId e = a.id ∧
        ∀ b, e = CustomEvent.Animate b →
          b.id = a.id ∧ b.position = a.position ∧ 1 ≤ b.frame ∧ b.frame ≤ 59 := by
  induction nows with
  | nil =>
    intro a _ e he
    simp [runAnimation] at he
  | cons now rest ih =>
    intro a h e he
    by_cases hg : now - a.last_update > frame_time
    · by_cases hf : a.frame + 1 < 60
      · rw [runAnimation_step_animate rest hg h hf] at he
        rcases List.mem_cons.mp he with rfl | he'
        · refine ⟨rfl, ?_⟩
          intro b hb
          cases hb
          exact ⟨rfl, rfl, by rw [Animation_mk_frame]; omega, by rw [Animation_mk_frame]; omega⟩
        · obtain ⟨h1, h2⟩ := ih ⟨a.id, a.frame + 1, a.position, now⟩
            (by rw [Animation_mk_frame]; omega) e he'
          rw [Animation_mk_id] at h1
          refine ⟨h1, ?_⟩
          intro b hb
          obtain ⟨hb1, hb2, hb3, hb4⟩ := h2 b hb
          rw [Animation_mk_id] at hb1
          rw [Animation_mk_position] at hb2
          exact ⟨hb1, hb2, hb3, hb4⟩
      · rw [runAnimation_step_clear rest hg h hf] at he
        rcases List.mem_cons.mp he with rfl | he'
        · exact ⟨rfl, fun b hb => by cases hb⟩
        · simp at he'
    · rw [runAnimation_step_skip rest hg] at he
      exact ih a h e he

theorem runAnimation_completes :
    ∀ (n : Nat) (a : Animation), a.frame ≤ 59 → a.frame + n = 60 →
      ∃ pre, runAnimation a (fireSchedule a.last_update n) = pre ++ [CustomEvent.Clear a.id] ∧
        ∀ e ∈ pre, isClear e = false := by
  intro n
  induction n with
  | zero => intro a h h60; omega
  | succ n ih =>
    intro a h h60
    have hg : a.last_update + 1 - a.last_update > frame_time := by
      have h1 : a.last_update + 1 - a.last_update = (1 : ℚ) := by ring
      rw [h1]
      norm_num [frame_time]
    have hsched : fireSchedule a.last_update (n + 1) =
        (a.last_update + 1) :: fireSchedule (a.last_update + 1) n := rfl
    by_cases hf : a.frame + 1 < 60
    · obtain ⟨pre, hpre, hcl⟩ := ih ⟨a.id, a.frame + 1, a.position, a.last_update + 1⟩
        (by rw [Animation_mk_frame]; omega) (by rw [Animation_mk_frame]; omega)
      rw [Animation_mk_last_update, Animation_mk_id] at hpre
      refine ⟨CustomEvent.Animate ⟨a.id, a.frame + 1, a.position, a.last_update + 1⟩ :: pre,
        ?_, ?_⟩
      · rw [hsched, runAnimation_step_animate _ hg h hf, hpre]
        rfl
      · intro e he
        rcases List.mem_cons.mp he with rfl | he'
        · rfl
        · exact hcl e he'
    · refine ⟨[], ?_, by simp⟩
      rw [hsched, runAnimation_step_clear _ hg h hf]
      rfl

/-! ### Linking the full pass model to the single-animation trace -/

theorem runPasses_empty (nows : List ℚ) : runPasses nows ⟨[], []⟩ = [] := by
  induction nows with
  | nil => rfl
  | cons now rest ih => simp [runPasses, schedulerIterate, ih]

theorem runPasses_single (nows : List ℚ) :
    ∀ a : Animation, a.frame ≤ 59 →
      runPasses nows ⟨[a], []⟩ = runAnimation a nows ∧
      runPasses nows ⟨[], [a]⟩ = runAnimation a nows := by
  induction nows with
  | nil => intro a _; exact ⟨rfl, rfl⟩
  | cons now rest ih =>
    intro a h
    have h1 : schedulerIterate now ⟨[a], []⟩ =
        (⟨[], [(tickAnimation now a).1].filter (fun b => b.frame < 60)⟩,
          (tickAnimation now a).2.toList) := by
      simp [schedulerIterate, schedulerPass, tickAll]
    have h2 : schedulerIterate now ⟨[], [a]⟩ =
        (⟨[], [(tickAnimation now a).1].filter (fun b => b.frame < 60)⟩,
          (tickAnimation now a).2.toList) := by
      simp [schedulerIterate, schedulerPass, tickAll]
    by_cases hg : now - a.last_update > frame_time
    · by_cases hf : a.frame + 1 < 60
      · have htick := tickAnimation_fired_animate hg h hf
        have hrun := runAnimation_step_animate rest hg h hf
        have htail := (ih ⟨a.id, a.frame + 1, a.position, now⟩
          (by rw [Animation_mk_frame]; omega)).2
        have hkeep : [(⟨a.id, a.frame + 1, a.position, now⟩ : Animation)].filter
            (fun b => b.frame < 60) = [⟨a.id, a.frame + 1, a.position, now⟩] := by
          simp [hf]
        constructor
        · rw [runPasses, h1, htick, hrun]
          simp only [Option.toList, hkeep]
          rw [htail]
          rfl
        · rw [runPasses, h2, htick, hrun]
          simp only [Option.toList, hkeep]
          rw [htail]
          rfl
      · have htick := tickAnimation_fired_clear hg h hf
        have hrun := runAnimation_step_clear rest hg h hf
        have hdrop : [(⟨a.id, a.frame + 1, a.position, now⟩ : Animation)].filter
            (fun b => b.frame < 60) = [] := by
          simp
          omega
        constructor
        · rw [runPasses, h1, htick, hrun]
          simp only [Option.toList, hdrop]
          rw [runPasses_empty]
          rfl
        · rw [runPasses, h2, htick, hrun]
          simp only [Option.toList, hdrop]
          rw [runPasses_empty]
          rfl
    · have htick := tickAnimation_not_fired hg
      have hrun := runAnimation_step_skip (a := a) rest hg
      have htail := (ih a h).2
      have hkeep : [a].filter (fun b => b.frame < 60) = [a] := by
        simp
        omega
      constructor
      · rw [runPasses, h1, htick, hrun]
        simp only [Option.toList, hkeep]
        rw [htail]
        rfl
      · rw [runPasses, h2, htick, hrun]
        simp only [Option.toList, hkeep]
        rw [htail]
        rfl

/-! ### Helper lemmas about the consumer map -/

theorem applyEvent_other {m : ConsumerMap} {e : CustomEvent} {k : Nat}
    (h : eventId e ≠ k) : applyEvent m e k = m k := by
  cases e with
  | Animate a =>
    simp only [applyEvent, add_animation]
    rw [if_neg]
    intro hk
    exact h (by simpa [eventId] using hk.symm)
  | Clear i =>
    simp only [applyEvent, remove_animation]
    rw [if_neg]
    intro hk
    exact h (by simpa [eventId] using hk.symm)

theorem applyEvents_noEventFor {i : Nat} :
    ∀ (evs : List CustomEvent), noEventFor i evs = true →
      ∀ m : ConsumerMap, applyEvents m evs i = m i := by
  intro evs
  induction evs with
  | nil => intro _ m; rfl
  | cons e rest ih =>
    intro hno m
    simp only [noEventFor, List.all_cons, Bool.and_eq_true] at hno
    have hne : eventId e ≠ i := by simpa using hno.1
    have : applyEvents m (e :: rest) i = applyEvents (applyEvent m e) rest i := rfl
    rw [this, ih (by simpa [noEventFor] using hno.2), applyEvent_other hne]

theorem wfTrace_tail {e : CustomEvent} {rest : List CustomEvent}
    (h : wfTrace (e :: rest) = true) : wfTrace rest = true := by
  cases e with
  | Animate a => simpa [wfTrace] using h
  | Clear i =>
    simp only [wfTrace, Bool.and_eq_true] at h
    exact h.2

theorem applyEvents_clear_none {i : Nat} :
    ∀ (evs : List CustomEvent), wfTrace evs = true → CustomEvent.Clear i ∈ evs →
      ∀ m : ConsumerMap, applyEvents m evs i = none := by
  intro evs
  induction evs with
  | nil => intro _ hmem; simp at hmem
  | cons e rest ih =>
    intro hwf hmem m
    have hstep : applyEvents m (e :: rest) i = applyEvents (applyEvent m e) rest i := rfl
    rcases List.mem_cons.mp hmem with rfl | hmem'
    · simp only [wfTrace, Bool.and_eq_true] at hwf
      rw [hstep, applyEvents_noEventFor rest hwf.1]
      simp [applyEvent, remove_animation]
    · rw [hstep]
      exact ih (wfTrace_tail hwf) hmem' (applyEvent m e)

theorem applyEvents_some_animate {i : Nat} {a : Animation} :
    ∀ (evs : List CustomEvent) (m : ConsumerMap), applyEvents m evs i = some a →
      (CustomEvent.Animate a ∈ evs ∧ a.id = i) ∨ m i = some a := by
  intro evs
  induction evs with
  | nil => intro m h; exact Or.inr h
  | cons e rest ih =>
    intro m h
    have hstep : applyEvents m (e :: rest) i = applyEvents (applyEvent m e) rest i := rfl
    rw [hstep] at h
    rcases ih (applyEvent m e) h with ⟨hmem, hid⟩ | hbase
    · exact Or.inl ⟨List.mem_cons_of_mem e hmem, hid⟩
    · by_cases hne : eventId e = i
      · cases e with
        | Animate b =>
          simp only [applyEvent, add_animation] at hbase
          simp only [eventId] at hne
          rw [if_pos hne.symm] at hbase
          cases hbase
          exact Or.inl ⟨List.mem_cons_self _ _, hne⟩
        | Clear j =>
          simp only [applyEvent, remove_animation] at hbase
          simp only [eventId] at hne
          rw [if_pos hne.symm] at hbase
          cases hbase
      · rw [applyEvent_other hne] at hbase
        exact Or.inr hbase

/-- Consecutive elements of `List.range' s n` differ by exactly one. -/
theorem chain'_succ_range' : ∀ (n s : Nat), List.Chain' (fun x y => y = x + 1) (List.range' s n)
  | 0, _ => by simp
  | 1, s => by simp
  | n + 2, s => by
    rw [List.range'_succ, List.range'_succ]
    exact List.Chain'.cons rfl
      (by rw [← List.range'_succ]; exact chain'_succ_range' (n + 1) (s + 1))

/-! ### Claim theorems -/

/-- Claim C1, counterexample: an animation admitted alone into an empty
system (id 1, frame 0, position (100,100)) and driven through a complete
lifecycle delivers the `Animate` frame sequence `1, 2, ..., 59`: the
sequence starts at 1, and no `Animate` with frame 0 is ever delivered,
contradicting the claim that the sequence starts at 0 and that an
`Animate` with frame 0 is delivered. -/
theorem C1_counterexample :
    animateFrames (runPasses (fireSchedule 0 61) ⟨[⟨1, 0, (100, 100), 0⟩], []⟩) =
      List.range' 1 59 ∧
    (animateFrames (runPasses (fireSchedule 0 61) ⟨[⟨1, 0, (100, 100), 0⟩], []⟩)).head? =
      some 1 ∧
    0 ∉ animateFrames (runPasses (fireSchedule 0 61) ⟨[⟨1, 0, (100, 100), 0⟩], []⟩) := by
  have h : animateFrames (runPasses (fireSchedule 0 61) ⟨[⟨1, 0, (100, 100), 0⟩], []⟩) =
      List.range' 1 59 := by
    norm_num [runPasses, schedulerIterate, schedulerPass, tickAll, tickAnimation,
      frame_time, fireSchedule, animateFrames, List.range']
  refine ⟨h, ?_, ?_⟩
  · rw [h]
    decide
  · rw [h]
    decide

/-- Claim C1 (amended): for every admitted animation (frame 0 at
admission), the sequence of frame indices carried by the delivered
`Animate` notifications is strictly increasing by exactly 1, starts at 1
(an `Animate` with frame 0 is never delivered, even for an animation
admitted into an empty system), and never exceeds 59. -/
theorem C1_amended (nows : List ℚ) (a : Animation) (h : a.frame = 0) :
    ∃ k, k ≤ 59 ∧
      animateFrames (runPasses nows ⟨[a], []⟩) = List.range' 1 k ∧
      List.Chain' (fun x y => y = x + 1) (animateFrames (runPasses nows ⟨[a], []⟩)) ∧
      (∀ f ∈ animateFrames (runPasses nows ⟨[a], []⟩), 1 ≤ f ∧ f ≤ 59) ∧
      0 ∉ animateFrames (runPasses nows ⟨[a], []⟩) := by
  have hlink := (runPasses_single nows a (by omega)).1
  obtain ⟨k, hk, hb⟩ := runAnimation_frames nows a (by omega)
  rw [h, Nat.zero_add] at hk hb
  rw [hlink, hk]
  refine ⟨k, by omega, rfl, chain'_succ_range' k 1, ?_, ?_⟩
  · intro f hf
    rw [List.mem_range'] at hf
    obtain ⟨i, hi, rfl⟩ := hf
    omega
  · intro hf
    rw [List.mem_range'] at hf
    obtain ⟨i, hi, hzero⟩ := hf
    omega

/-- Claim C1 amended, witness at the concrete admission of id 1 at
position (100,100) with a single pass at t = 1 s. -/
theorem C1_amended_witness :
    (⟨1, 0, (100, 100), 0⟩ : Animation).frame = 0 ∧
    (∃ k, k ≤ 59 ∧
      animateFrames (runPasses [1] ⟨[⟨1, 0, (100, 100), 0⟩], []⟩) = List.range' 1 k ∧
      List.Chain' (fun x y => y = x + 1)
        (animateFrames (runPasses [1] ⟨[⟨1, 0, (100, 100), 0⟩], []⟩)) ∧
      (∀ f ∈ animateFrames (runPasses [1] ⟨[⟨1, 0, (100, 100), 0⟩], []⟩), 1 ≤ f ∧ f ≤ 59) ∧
      0 ∉ animateFrames (runPasses [1] ⟨[⟨1, 0, (100, 100), 0⟩], []⟩)) :=
  ⟨rfl, C1_amended [1] ⟨1, 0, (100, 100), 0⟩ rfl⟩

/-- Claim C2: for every admitted animation (frame 0 at admission), the
`Animate` notifications are sent in strictly increasing frame order
(frames form a contiguous increasing run starting at 1); in every trace
either no `Clear` has been sent yet, or exactly one `Clear(id)` has been
sent, it is the last notification, and no notification for that id
follows it; and on any schedule whose 60 passes each let the frame
period elapse, the animation reaches its `Clear`. -/
theorem C2_ordering_and_completion (a : Animation) (h : a.frame = 0) :
    (∀ nows : List ℚ,
      (∃ k, animateFrames (runPasses nows ⟨[a], []⟩) = List.range' 1 k) ∧
      ((∀ e ∈ runPasses nows ⟨[a], []⟩, isClear e = false) ∨
        (∃ pre, runPasses nows ⟨[a], []⟩ = pre ++ [CustomEvent.Clear a.id] ∧
          ∀ e ∈ pre, isClear e = false))) ∧
    (∃ pre, runPasses (fireSchedule a.last_update 60) ⟨[a], []⟩ =
        pre ++ [CustomEvent.Clear a.id] ∧ ∀ e ∈ pre, isClear e = false) := by
  constructor
  · intro nows
    have hlink := (runPasses_single nows a (by omega)).1
    constructor
    · obtain ⟨k, hk, _⟩ := runAnimation_frames nows a (by omega)
      rw [h, Nat.zero_add] at hk
      exact ⟨k, by rw [hlink, hk]⟩
    · rw [hlink]
      exact runAnimation_clear_shape nows a (by omega)
  · have hlink := (runPasses_single (fireSchedule a.last_update 60) a (by omega)).1
    rw [hlink]
    exact runAnimation_completes 60 a (by omega) (by omega)

/-- Claim C2, witness at the concrete admission of id 1 at position
(100,100). -/
theorem C2_witness :
    (⟨1, 0, (100, 100), 0⟩ : Animation).frame = 0 ∧
    ((∀ nows : List ℚ,
      (∃ k, animateFrames (runPasses nows ⟨[⟨1, 0, (100, 100), 0⟩], []⟩) = List.range' 1 k) ∧
      ((∀ e ∈ runPasses nows ⟨[⟨1, 0, (100, 100), 0⟩], []⟩, isClear e = false) ∨
        (∃ pre, runPasses nows ⟨[⟨1, 0, (100, 100), 0⟩], []⟩ =
            pre ++ [CustomEvent.Clear (⟨1, 0, (100, 100), 0⟩ : Animation).id] ∧
          ∀ e ∈ pre, isClear e = false))) ∧
    (∃ pre, runPasses (fireSchedule (⟨1, 0, (100, 100), 0⟩ : Animation).last_update 60)
        ⟨[⟨1, 0, (100, 100), 0⟩], []⟩ =
        pre ++ [CustomEvent.Clear (⟨1, 0, (100, 100), 0⟩ : Animation).id] ∧
      ∀ e ∈ pre, isClear e = false)) :=
  ⟨rfl, C2_ordering_and_completion ⟨1, 0, (100, 100), 0⟩ rfl⟩

/-- Claim C3: a scheduler step emits `Animate` for an animation only
while its (pre-step) frame is strictly below `MAX_FRAME = 59`; once the
frame has reached 59, a firing step emits `Clear` exactly once (it is
the step's only event) and leaves the frame at 60, so the pass's
`retain` removes the animation from the working set (every animation
kept in the working set has frame `< 60`); and in the whole event trace
of an admitted animation the `Clear`, when present, is the final event,
so the id never re-appears in a later notification. -/
theorem C3_terminal (now : ℚ) (a : Animation) (st : SchedState) (nows : List ℚ)
    (a0 : Animation) (h : a.frame ≤ 59) (h0 : a0.frame = 0) :
    (∀ b, (tickAnimation now a).2 = some (CustomEvent.Animate b) → a.frame < 59) ∧
    (59 ≤ a.frame → now - a.last_update > frame_time →
      (tickAnimation now a).2 = some (CustomEvent.Clear a.id) ∧
      (tickAnimation now a).1.frame = 60) ∧
    (∀ b, b ∈ (schedulerPass now st).1.localq → b.frame < 60) ∧
    ((∀ e ∈ runPasses nows ⟨[a0], []⟩, isClear e = false) ∨
      (∃ pre, runPasses nows ⟨[a0], []⟩ = pre ++ [CustomEvent.Clear a0.id] ∧
        ∀ e ∈ pre, isClear e = false)) := by
  refine ⟨?_, ?_, ?_, ?_⟩
  · intro b hb
    by_cases hg : now - a.last_update > frame_time
    · by_cases hf : a.frame + 1 < 60
      · omega
      · rw [tickAnimation_fired_clear hg h hf] at hb
        simp at hb
    · rw [tickAnimation_not_fired hg] at hb
      simp at hb
  · intro h59 hg
    have hf : ¬ a.frame + 1 < 60 := by omega
    rw [tickAnimation_fired_clear hg h hf]
    refine ⟨rfl, ?_⟩
    rw [Animation_mk_frame]
    omega
  · intro b hb
    have : (schedulerPass now st).1.localq =
        (tickAll now (st.localq ++ st.queue)).1.filter (fun a => a.frame < 60) := rfl
    rw [this] at hb
    have := List.of_mem_filter hb
    simpa using this
  · have hlink := (runPasses_single nows a0 (by omega)).1
    rw [hlink]
    exact runAnimation_clear_shape nows a0 (by omega)

/-- Claim C3, witness: a terminal animation (frame 59) fires at t = 1 s;
the pass state and trace parts are instantiated at an empty pass state
and the concrete admission of id 1. -/
theorem C3_witness :
    (⟨2, 59, (0, 0), 0⟩ : Animation).frame ≤ 59 ∧
    (⟨1, 0, (100, 100), 0⟩ : Animation).frame = 0 ∧
    ((∀ b, (tickAnimation 1 ⟨2, 59, (0, 0), 0⟩).2 = some (CustomEvent.Animate b) →
        (⟨2, 59, (0, 0), 0⟩ : Animation).frame < 59) ∧
    (59 ≤ (⟨2, 59, (0, 0), 0⟩ : Animation).frame →
      (1 : ℚ) - (⟨2, 59, (0, 0), 0⟩ : Animation).last_update > frame_time →
      (tickAnimation 1 ⟨2, 59, (0, 0), 0⟩).2 =
        some (CustomEvent.Clear (⟨2, 59, (0, 0), 0⟩ : Animation).id) ∧
      (tickAnimation 1 ⟨2, 59, (0, 0), 0⟩).1.frame = 60) ∧
    (∀ b, b ∈ (schedulerPass 1 ⟨[], []⟩).1.localq → b.frame < 60) ∧
    ((∀ e ∈ runPasses [1] ⟨[⟨1, 0, (100, 100), 0⟩], []⟩, isClear e = false) ∨
      (∃ pre, runPasses [1] ⟨[⟨1, 0, (100, 100), 0⟩], []⟩ =
          pre ++ [CustomEvent.Clear (⟨1, 0, (100, 100), 0⟩ : Animation).id] ∧
        ∀ e ∈ pre, isClear e = false))) :=
  ⟨by decide, rfl, C3_terminal 1 ⟨2, 59, (0, 0), 0⟩ ⟨[], []⟩ [1] ⟨1, 0, (100, 100), 0⟩
    (by decide) rfl⟩

/-- Claim C4: on a qualifying trigger (primed via Alt, left button), the
callback assigns the freshly incremented, strictly increasing id and
attempts a non-blocking push of `frame = 0`, `last_update = now`, and
the sampled pointer position into the capacity-10 registry queue; the
push succeeds exactly when the queue is not full, and exactly then the
audio cue is played and the scheduler is unparked; when the queue is
full the attempt leaves the queue, the sound count and the unpark count
unchanged (so no `Animate`/`Clear` can ever arise from it); and a
non-primed button press does nothing at all. -/
theorem C4_admission (now : ℚ) (pos : Int × Int) (st : ListenerState) (b : Button) :
    (st.primed = true → st.queue.length < QUEUE_CAP →
      listenCallback now pos st (EventType.ButtonPress Button.Left) =
        { primed := st.primed, animation_id := st.animation_id + 1,
          queue := st.queue ++ [⟨st.animation_id + 1, 0, pos, now⟩],
          soundsPlayed := st.soundsPlayed + 1, unparks := st.unparks + 1 }) ∧
    (st.primed = true → ¬ st.queue.length < QUEUE_CAP →
      listenCallback now pos st (EventType.ButtonPress Button.Left) =
        { primed := st.primed, animation_id := st.animation_id + 1,
          queue := st.queue,
          soundsPlayed := st.soundsPlayed, unparks := st.unparks }) ∧
    (st.primed = false →
      listenCallback now pos st (EventType.ButtonPress b) = st) := by
  refine ⟨?_, ?_, ?_⟩
  · intro hp hq
    simp [listenCallback, arrayQueuePush, hp, hq]
  · intro hp hq
    simp [listenCallback, arrayQueuePush, hp, hq]
  · intro hp
    simp [listenCallback, hp]

/-- Claim C4, witness: a primed listener with an empty queue admits id 1
at position (100,100) at t = 0; the queue-full and unprimed branches are
discharged vacuously at this concrete state. -/
theorem C4_witness :
    ((ListenerState.mk true 0 [] 0 0).primed = true →
      (ListenerState.mk true 0 [] 0 0).queue.length < QUEUE_CAP →
      listenCallback 0 (100, 100) (ListenerState.mk true 0 [] 0 0)
          (EventType.ButtonPress Button.Left) =
        { primed := (ListenerState.mk true 0 [] 0 0).primed,
          animation_id := (ListenerState.mk true 0 [] 0 0).animation_id + 1,
          queue := (ListenerState.mk true 0 [] 0 0).queue ++
            [⟨(ListenerState.mk true 0 [] 0 0).animation_id + 1, 0, (100, 100), 0⟩],
          soundsPlayed := (ListenerState.mk true 0 [] 0 0).soundsPlayed + 1,
          unparks := (ListenerState.mk true 0 [] 0 0).unparks + 1 }) ∧
    ((ListenerState.mk true 0 [] 0 0).primed = true →
      ¬ (ListenerState.mk true 0 [] 0 0).queue.length < QUEUE_CAP →
      listenCallback 0 (100, 100) (ListenerState.mk true 0 [] 0 0)
          (EventType.ButtonPress Button.Left) =
        { primed := (ListenerState.mk true 0 [] 0 0).primed,
          animation_id := (ListenerState.mk true 0 [] 0 0).animation_id + 1,
          queue := (ListenerState.mk true 0 [] 0 0).queue,
          soundsPlayed := (ListenerState.mk true 0 [] 0 0).soundsPlayed,
          unparks := (ListenerState.mk true 0 [] 0 0).unparks }) ∧
    ((ListenerState.mk true 0 [] 0 0).primed = false →
      listenCallback 0 (100, 100) (ListenerState.mk true 0 [] 0 0)
        (EventType.ButtonPress Button.Left) = ListenerState.mk true 0 [] 0 0) :=
  C4_admission 0 (100, 100) (ListenerState.mk true 0 [] 0 0) Button.Left

/-- Claim C5, counterexample: the driver sends with
`event_loop_proxy.send_event(...).ok()`, discarding the `Result`.  With
the channel disconnected, a sent `Clear(1)` is silently dropped (the
delivered list stays empty) and the scheduler does not treat the
disconnection as fatal (the fatal flag is `false`), contradicting the
claim that a sent notification is never silently dropped and that a
disconnection is treated as fatal. -/
theorem C5_counterexample :
    (driverSendEvent false [] (CustomEvent.Clear 1)).1 = [] ∧
    (driverSendEvent false [] (CustomEvent.Clear 1)).2 = false :=
  ⟨rfl, rfl⟩

/-- Claim C5 (amended): while the event loop is alive, a notification
sent by the scheduler is appended losslessly to the channel; but if the
channel is disconnected the send error is discarded (`.ok()`), the
notification is silently dropped, and the scheduler continues — the
disconnection is not treated as fatal. -/
theorem C5_amended (channelOpen : Bool) (delivered : List CustomEvent) (ev : CustomEvent) :
    (channelOpen = true →
      (driverSendEvent channelOpen delivered ev).1 = delivered ++ [ev]) ∧
    (channelOpen = false →
      (driverSendEvent channelOpen delivered ev).1 = delivered) ∧
    (driverSendEvent channelOpen delivered ev).2 = false := by
  refine ⟨?_, ?_, rfl⟩
  · intro h
    simp [driverSendEvent, send_event, h]
  · intro h
    simp [driverSendEvent, send_event, h]

/-- Claim C5 amended, witness on an open channel delivering
`Animate` of the id-1 animation, and on a closed channel. -/
theorem C5_amended_witness :
    ((true : Bool) = true →
      (driverSendEvent true [] (CustomEvent.Animate ⟨1, 1, (100, 100), 0⟩)).1 =
        [] ++ [CustomEvent.Animate ⟨1, 1, (100, 100), 0⟩]) ∧
    ((true : Bool) = false →
      (driverSendEvent true [] (CustomEvent.Animate ⟨1, 1, (100, 100), 0⟩)).1 = []) ∧
    (driverSendEvent true [] (CustomEvent.Animate ⟨1, 1, (100, 100), 0⟩)).2 = false :=
  C5_amended true [] (CustomEvent.Animate ⟨1, 1, (100, 100), 0⟩)

/-- Claim C6: a scheduler step advances an animation's frame by exactly
1 precisely when the wall-clock time elapsed since `last_update`
strictly exceeds the fixed frame period `frame_time = 1/60` s, in which
case `last_update` is reset to `now`; otherwise the animation is
untouched and no event is emitted; at most one increment happens per
check however much time has elapsed, and the frame never decreases. -/
theorem C6_frame_gate (now : ℚ) (a : Animation) (h : a.frame ≤ 59) :
    ((tickAnimation now a).1.frame = a.frame + 1 ↔ now - a.last_update > frame_time) ∧
    (now - a.last_update > frame_time → (tickAnimation now a).1.last_update = now) ∧
    (¬ now - a.last_update > frame_time → tickAnimation now a = (a, none)) ∧
    a.frame ≤ (tickAnimation now a).1.frame ∧
    (tickAnimation now a).1.frame ≤ a.frame + 1 ∧
    frame_time = 1 / 60 := by
  have hfr : (tickAnimation now a).1.frame =
      if now - a.last_update > frame_time then a.frame + 1 else a.frame := by
    by_cases hg : now - a.last_update > frame_time
    · rw [if_pos hg]
      by_cases hf : a.frame + 1 < 60
      · rw [tickAnimation_fired_animate hg h hf, Animation_mk_frame]
      · rw [tickAnimation_fired_clear hg h hf, Animation_mk_frame]
    · rw [if_neg hg, tickAnimation_not_fired hg]
  refine ⟨?_, ?_, ?_, ?_, ?_, rfl⟩
  · constructor
    · intro heq
      by_cases hg : now - a.last_update > frame_time
      · exact hg
      · rw [hfr, if_neg hg] at heq
        omega
    · intro hg
      rw [hfr, if_pos hg]
  · intro hg
    by_cases hf : a.frame + 1 < 60
    · rw [tickAnimation_fired_animate hg h hf, Animation_mk_last_update]
    · rw [tickAnimation_fired_clear hg h hf, Animation_mk_last_update]
  · exact fun hg => tickAnimation_not_fired hg
  · rw [hfr]
    by_cases hg : now - a.last_update > frame_time
    · rw [if_pos hg]; omega
    · rw [if_neg hg]
  · rw [hfr]
    by_cases hg : now - a.last_update > frame_time
    · rw [if_pos hg]
    · rw [if_neg hg]; omega

/-- Claim C6, witness: the id-1 animation admitted at t = 0 checked at
t = 1 s. -/
theorem C6_witness :
    (⟨1, 0, (100, 100), 0⟩ : Animation).frame ≤ 59 ∧
    (((tickAnimation 1 ⟨1, 0, (100, 100), 0⟩).1.frame =
        (⟨1, 0, (100, 100), 0⟩ : Animation).frame + 1 ↔
      (1 : ℚ) - (⟨1, 0, (100, 100), 0⟩ : Animation).last_update > frame_time) ∧
    ((1 : ℚ) - (⟨1, 0, (100, 100), 0⟩ : Animation).last_update > frame_time →
      (tickAnimation 1 ⟨1, 0, (100, 100), 0⟩).1.last_update = 1) ∧
    (¬ (1 : ℚ) - (⟨1, 0, (100, 100), 0⟩ : Animation).last_update > frame_time →
      tickAnimation 1 ⟨1, 0, (100, 100), 0⟩ = (⟨1, 0, (100, 100), 0⟩, none)) ∧
    (⟨1, 0, (100, 100), 0⟩ : Animation).frame ≤
      (tickAnimation 1 ⟨1, 0, (100, 100), 0⟩).1.frame ∧
    (tickAnimation 1 ⟨1, 0, (100, 100), 0⟩).1.frame ≤
      (⟨1, 0, (100, 100), 0⟩ : Animation).frame + 1 ∧
    frame_time = 1 / 60) :=
  ⟨by decide, C6_frame_gate 1 ⟨1, 0, (100, 100), 0⟩ (by decide)⟩

/-- Claim C7: whenever the scheduler's working set and the registry
queue are both empty, an iteration parks — the state is unchanged and no
notification is emitted — and a whole run over the empty state emits
nothing; as soon as the queue is non-empty (which a successful admission
guarantees, also bumping the unpark count to wake the thread), the
iteration runs a real pass. -/
theorem C7_idle_park (now now2 : ℚ) (st : SchedState) (nows : List ℚ)
    (q l : List Animation) (pos : Int × Int) (lst : ListenerState) :
    (st.queue = [] → st.localq = [] → schedulerIterate now st = (st, [])) ∧
    runPasses nows ⟨[], []⟩ = [] ∧
    (q ≠ [] → schedulerIterate now ⟨q, l⟩ = schedulerPass now ⟨q, l⟩) ∧
    (lst.primed = true → lst.queue.length < QUEUE_CAP →
      (listenCallback now2 pos lst (EventType.ButtonPress Button.Left)).queue ≠ [] ∧
      (listenCallback now2 pos lst (EventType.ButtonPress Button.Left)).unparks =
        lst.unparks + 1) := by
  refine ⟨?_, runPasses_empty nows, ?_, ?_⟩
  · intro hq hl
    simp [schedulerIterate, hq, hl]
  · intro hq
    rw [schedulerIterate]
    rw [if_neg]
    simp only [Bool.and_eq_true, List.isEmpty_iff]
    intro hcon
    exact hq hcon.1
  · intro hp hq
    simp [listenCallback, arrayQueuePush, hp, hq]

/-- Claim C7, witness: parked at the empty state at t = 0; a primed
listener with an empty queue admits and wakes the scheduler. -/
theorem C7_witness :
    ((⟨[], []⟩ : SchedState).queue = [] → (⟨[], []⟩ : SchedState).localq = [] →
      schedulerIterate 0 ⟨[], []⟩ = (⟨[], []⟩, [])) ∧
    runPasses [] ⟨[], []⟩ = [] ∧
    (([⟨1, 0, (100, 100), 0⟩] : List Animation) ≠ [] →
      schedulerIterate 0 ⟨[⟨1, 0, (100, 100), 0⟩], []⟩ =
        schedulerPass 0 ⟨[⟨1, 0, (100, 100), 0⟩], []⟩) ∧
    ((ListenerState.mk true 0 [] 0 0).primed = true →
      (ListenerState.mk true 0 [] 0 0).queue.length < QUEUE_CAP →
      (listenCallback 0 (100, 100) (ListenerState.mk true 0 [] 0 0)
          (EventType.ButtonPress Button.Left)).queue ≠ [] ∧
      (listenCallback 0 (100, 100) (ListenerState.mk true 0 [] 0 0)
          (EventType.ButtonPress Button.Left)).unparks =
        (ListenerState.mk true 0 [] 0 0).unparks + 1) :=
  C7_idle_park 0 0 ⟨[], []⟩ [] [⟨1, 0, (100, 100), 0⟩] [] (100, 100)
    (ListenerState.mk true 0 [] 0 0)

/-- Claim C8: the consumer applies `Animate` by inserting or overwriting
the entry keyed by the animation's id, applies `Clear` by removing that
key, and a `Clear` whose id has no entry changes nothing; consequently,
after processing any delivered trace that is per-id well-ordered (no
event for an id follows its `Clear`, as the scheduler guarantees),
every id present in the map had an `Animate` delivered for it and had no
`Clear` processed for it. -/
theorem C8_consumer_map (m : ConsumerMap) (a : Animation) (i k : Nat)
    (evs : List CustomEvent) (hwf : wfTrace evs = true) :
    (applyEvent m (CustomEvent.Animate a) = add_animation m a) ∧
    (applyEvent m (CustomEvent.Clear i) = remove_animation m i) ∧
    (add_animation m a a.id = some a) ∧
    (k ≠ a.id → add_animation m a k = m k) ∧
    (remove_animation m i i = none) ∧
    (m i = none → ∀ j, remove_animation m i j = m j) ∧
    (∀ j b, applyEvents emptyMap evs j = some b →
      (CustomEvent.Animate b ∈ evs ∧ b.id = j) ∧ CustomEvent.Clear j ∉ evs) := by
  refine ⟨rfl, rfl, by simp [add_animation], ?_, by simp [remove_animation], ?_, ?_⟩
  · intro hk
    simp [add_animation, hk]
  · intro hnone j
    by_cases hj : j = i
    · subst hj
      simp [remove_animation, hnone]
    · simp [remove_animation, hj]
  · intro j b hb
    have hsome := applyEvents_some_animate evs emptyMap hb
    rcases hsome with ⟨hmem, hid⟩ | hbase
    · refine ⟨⟨hmem, hid⟩, ?_⟩
      intro hclear
      have := applyEvents_clear_none evs hwf hclear emptyMap
      rw [this] at hb
      exact Option.noConfusion hb
    · exact absurd hbase (by simp [emptyMap])

/-- Claim C8, witness at the well-ordered delivered trace
`[Animate(id 1, frame 1), Clear 1]`. -/
theorem C8_witness :
    wfTrace [CustomEvent.Animate ⟨1, 1, (100, 100), 0⟩, CustomEvent.Clear 1] = true ∧
    ((applyEvent emptyMap (CustomEvent.Animate ⟨1, 1, (100, 100), 0⟩) =
        add_animation emptyMap ⟨1, 1, (100, 100), 0⟩) ∧
    (applyEvent emptyMap (CustomEvent.Clear 1) = remove_animation emptyMap 1) ∧
    (add_animation emptyMap ⟨1, 1, (100, 100), 0⟩
        (⟨1, 1, (100, 100), 0⟩ : Animation).id = some ⟨1, 1, (100, 100), 0⟩) ∧
    ((2 : Nat) ≠ (⟨1, 1, (100, 100), 0⟩ : Animation).id →
      add_animation emptyMap ⟨1, 1, (100, 100), 0⟩ 2 = emptyMap 2) ∧
    (remove_animation emptyMap 1 1 = none) ∧
    (emptyMap 1 = none → ∀ j, remove_animation emptyMap 1 j = emptyMap j) ∧
    (∀ j b, applyEvents emptyMap
        [CustomEvent.Animate ⟨1, 1, (100, 100), 0⟩, CustomEvent.Clear 1] j = some b →
      (CustomEvent.Animate b ∈
          [CustomEvent.Animate ⟨1, 1, (100, 100), 0⟩, CustomEvent.Clear 1] ∧ b.id = j) ∧
      CustomEvent.Clear j ∉
        [CustomEvent.Animate ⟨1, 1, (100, 100), 0⟩, CustomEvent.Clear 1])) :=
  ⟨rfl, C8_consumer_map emptyMap ⟨1, 1, (100, 100), 0⟩ 1 2
    [CustomEvent.Animate ⟨1, 1, (100, 100), 0⟩, CustomEvent.Clear 1] rfl⟩

/-- Claim C9: a scheduler step never changes an animation's `id` or
`position` (only `frame` and `last_update` are mutated), and every
`Animate` notification delivered for an admitted animation carries the
id and the position sampled at admission time. -/
theorem C9_immutable (now : ℚ) (a : Animation) (nows : List ℚ) (a0 : Animation)
    (h0 : a0.frame = 0) :
    (tickAnimation now a).1.id = a.id ∧
    (tickAnimation now a).1.position = a.position ∧
    (∀ b, CustomEvent.Animate b ∈ runPasses nows ⟨[a0], []⟩ →
      b.id = a0.id ∧ b.position = a0.position) := by
  refine ⟨tickAnimation_id now a, tickAnimation_position now a, ?_⟩
  intro b hb
  have hlink := (runPasses_single nows a0 (by omega)).1
  rw [hlink] at hb
  obtain ⟨_, hmem⟩ := runAnimation_mem nows a0 (by omega) (CustomEvent.Animate b) hb
  obtain ⟨h1, h2, _, _⟩ := hmem b rfl
  exact ⟨h1, h2⟩

/-- Claim C9, witness: a step on the id-1 animation at t = 1 s and the
trace of its admission run. -/
theorem C9_witness :
    (⟨1, 0, (100, 100), 0⟩ : Animation).frame = 0 ∧
    ((tickAnimation 1 ⟨1, 0, (100, 100), 0⟩).1.id =
        (⟨1, 0, (100, 100), 0⟩ : Animation).id ∧
    (tickAnimation 1 ⟨1, 0, (100, 100), 0⟩).1.position =
        (⟨1, 0, (100, 100), 0⟩ : Animation).position ∧
    (∀ b, CustomEvent.Animate b ∈ runPasses [1] ⟨[⟨1, 0, (100, 100), 0⟩], []⟩ →
      b.id = (⟨1, 0, (100, 100), 0⟩ : Animation).id ∧
      b.position = (⟨1, 0, (100, 100), 0⟩ : Animation).position)) :=
  ⟨rfl, C9_immutable 1 ⟨1, 0, (100, 100), 0⟩ [1] ⟨1, 0, (100, 100), 0⟩ rfl⟩

/-- Claim C10: provided the bundled asset source yields at least 60
frame images, the consumer's render pass never indexes the frames vector
out of bounds: if every delivered `Animate` carries a frame below 60
(which the scheduler guarantees for every admitted animation, shown in
the second part), then every animation held in the consumer's map after
processing the trace has a frame that is a valid index into `frames`. -/
theorem C10_render_in_bounds {α : Type} (frames : List α) (evs : List CustomEvent)
    (nows : List ℚ) (a0 : Animation)
    (hlen : 60 ≤ frames.length)
    (hevs : ∀ b, CustomEvent.Animate b ∈ evs → b.frame < 60) :
    (∀ j b, applyEvents emptyMap evs j = some b → (uiFrameLookup frames b).isSome = true) ∧
    (a0.frame = 0 → ∀ b, CustomEvent.Animate b ∈ runPasses nows ⟨[a0], []⟩ →
      b.frame < 60) := by
  constructor
  · intro j b hb
    rcases applyEvents_some_animate evs emptyMap hb with ⟨hmem, _⟩ | hbase
    · have hlt : b.frame < frames.length := lt_of_lt_of_le (hevs b hmem) hlen
      have hne : frames.get? b.frame ≠ none := by
        rw [Ne, List.get?_eq_none]
        omega
      rw [uiFrameLookup]
      exact Option.isSome_iff_ne_none.mpr hne
    · exact absurd hbase (by simp [emptyMap])
  · intro h0 b hb
    have hlink := (runPasses_single nows a0 (by omega)).1
    rw [hlink] at hb
    obtain ⟨_, hmem⟩ := runAnimation_mem nows a0 (by omega) (CustomEvent.Animate b) hb
    obtain ⟨_, _, _, h4⟩ := hmem b rfl
    omega

/-- Claim C10, witness: a 60-image frame vector and the delivered trace
`[Animate(id 1, frame 59)]`. -/
theorem C10_witness :
    60 ≤ (List.replicate 60 (0 : Nat)).length ∧
    (∀ b, CustomEvent.Animate b ∈ [CustomEvent.Animate ⟨1, 59, (100, 100), 0⟩] →
      b.frame < 60) ∧
    ((∀ j b, applyEvents emptyMap [CustomEvent.Animate ⟨1, 59, (100, 100), 0⟩] j = some b →
      (uiFrameLookup (List.replicate 60 (0 : Nat)) b).isSome = true) ∧
    ((⟨1, 0, (100, 100), 0⟩ : Animation).frame = 0 →
      ∀ b, CustomEvent.Animate b ∈ runPasses [1] ⟨[⟨1, 0, (100, 100), 0⟩], []⟩ →
        b.frame < 60)) := by
  have hevs : ∀ b, CustomEvent.Animate b ∈ [CustomEvent.Animate ⟨1, 59, (100, 100), 0⟩] →
      b.frame < 60 := by
    intro b hb
    rcases List.mem_singleton.mp hb with h
    cases h
    decide
  exact ⟨by simp, hevs,
    C10_render_in_bounds (List.replicate 60 (0 : Nat))
      [CustomEvent.Animate ⟨1, 59, (100, 100), 0⟩] [1] ⟨1, 0, (100, 100), 0⟩
      (by simp) hevs⟩

end ScreenPinger
